import Mathlib

/-!
# Shallow embedding of the sales-analytics pipeline

Lean model of the three Python modules `utils/file_handler.py`,
`utils/data_processor.py` and `utils/api_handler.py`.

Modelling conventions:
* A Python transaction dictionary produced by `parse_transactions` always
  carries all eight keys, so `Transaction` is a total record; the
  `except KeyError` branches guarding dictionary access are unreachable for
  such records and are noted where they occur in the source.
* Python `float` is modelled as `Rat` (exact arithmetic); Python `int` as `Int`;
  counts as `Nat`.
* Python dictionaries keep insertion order; they are modelled as association
  lists where updating an existing key rewrites it in place and a new key is
  appended at the end.
* Python's `sorted` is a stable sort; it is modelled by a stable insertion
  sort (`pySorted`), with `reverse=True` realised by flipping the key
  comparison, which preserves encounter order on ties exactly as CPython does.
* File writes are modelled by their success/failure only: `save_enriched_data`
  indexes `enriched_transactions[0]` and hence raises `IndexError` on an empty
  list, which the model renders as `none`.
-/

/-- One parsed sales transaction (the dictionary built in
`parse_transactions`, `file_handler.py` lines 82-91). -/
structure Transaction where
  TransactionID : String
  Date : String
  ProductID : String
  ProductName : String
  Quantity : Int
  UnitPrice : Rat
  CustomerID : String
  Region : String
deriving Repr, DecidableEq

/-! ## String-operation model

Python string methods are modelled as structural functions on the underlying
character lists (`String.data`); each models exactly the usage in the source
(single-character separators and patterns throughout). -/

/-- Python `s.strip()`: remove leading and trailing whitespace. -/
def pyStrip (l : List Char) : List Char :=
  ((l.dropWhile Char.isWhitespace).reverse.dropWhile Char.isWhitespace).reverse

/-- Python `s.split(sep)` for a one-character separator: always returns at
least one (possibly empty) piece, e.g. `''.split('|') == ['']`. -/
def splitOnChar (c : Char) : List Char → List (List Char)
  | [] => [[]]
  | x :: xs =>
      match splitOnChar c xs with
      | [] => [[]]
      | h :: t => if x = c then [] :: h :: t else (x :: h) :: t

/-- Python `s.replace(c, '')` for a one-character pattern. -/
def removeChar (c : Char) (l : List Char) : List Char :=
  l.filter (fun x => x ≠ c)

/-- Python `s.replace(c, r)` for one-character pattern and replacement. -/
def replaceChar (c r : Char) (l : List Char) : List Char :=
  l.map (fun x => if x = c then r else x)

/-- Python `s.startswith(p)` for a one-character pattern. -/
def pyStartsWith (c : Char) (s : String) : Bool :=
  match s.data with
  | [] => false
  | x :: _ => x = c

/-- Python `<=` on strings: lexicographic comparison by code point. -/
def charListLe : List Char → List Char → Bool
  | [], _ => true
  | _ :: _, [] => false
  | a :: as, b :: bs =>
      if a.toNat < b.toNat then true
      else if b.toNat < a.toNat then false
      else charListLe as bs

/-! ## Numeric conversion model (`int(...)`, `float(...)`) -/

/-- Value of a digit string (most significant first). -/
def digitsVal (l : List Char) : Nat :=
  l.foldl (fun n c => n * 10 + (c.toNat - 48)) 0

/-- Python `int(s)` on decimal literals: optional surrounding whitespace,
optional sign, then at least one digit; anything else raises `ValueError`
(modelled as `none`). -/
def pyInt (s : String) : Option Int :=
  match pyStrip s.data with
  | [] => none
  | '-' :: rest =>
      if !rest.isEmpty && rest.all (·.isDigit) then some (-(digitsVal rest : Int)) else none
  | '+' :: rest =>
      if !rest.isEmpty && rest.all (·.isDigit) then some (digitsVal rest : Int) else none
  | l =>
      if l.all (·.isDigit) then some (digitsVal l : Int) else none

/-- Python `float(s)` on decimal literals: optional surrounding whitespace,
optional sign, digits with an optional single decimal point (at least one
digit overall); anything else raises `ValueError` (modelled as `none`). -/
def pyFloat (s : String) : Option Rat :=
  let signBody : Int × List Char :=
    match pyStrip s.data with
    | '-' :: rest => (-1, rest)
    | '+' :: rest => (1, rest)
    | l => (1, l)
  match splitOnChar '.' signBody.2 with
  | [ip] =>
      if !ip.isEmpty && ip.all (·.isDigit) then
        some ((signBody.1 : Rat) * (digitsVal ip : Rat))
      else none
  | [ip, fp] =>
      if ip.all (·.isDigit) && fp.all (·.isDigit) && !(ip.isEmpty && fp.isEmpty) then
        some ((signBody.1 : Rat) *
          ((digitsVal ip : Rat) + (digitsVal fp : Rat) / ((10 : Rat) ^ fp.length)))
      else none
  | _ => none

/-! ## `file_handler.py` -/

/-- Body of the `parse_transactions` loop for a single raw line
(`file_handler.py` lines 65-92): strip, split on `'|'`, require exactly 8
fields, normalise commas, convert `Quantity`/`UnitPrice`; any failure drops
the line (`continue`), modelled as `none`. -/
def parseLine (line : String) : Option Transaction :=
  match (splitOnChar '|' (pyStrip line.data)).map (fun l => (⟨l⟩ : String)) with
  | [tid, date, pid, pname, qty, price, cid, reg] =>
      match pyInt ⟨removeChar ',' qty.data⟩, pyFloat ⟨removeChar ',' price.data⟩ with
      | some q, some p =>
          some ⟨tid, date, pid, ⟨replaceChar ',' ' ' pname.data⟩, q, p, cid, reg⟩
      | _, _ => none
  | _ => none

/-- `parse_transactions` (`file_handler.py` lines 32-94). -/
def parse_transactions (raw_lines : List String) : List Transaction :=
  raw_lines.filterMap parseLine

/-- The validation test of `get_valid_transaction` (`file_handler.py`
lines 177-181): `True` when the record is invalid. The `except KeyError`
branch is unreachable because `Transaction` is a total record. -/
def invalidTx (t : Transaction) : Bool :=
  decide (t.Quantity ≤ 0) || decide (t.UnitPrice ≤ 0) ||
    !(pyStartsWith 'P' t.ProductID) || !(pyStartsWith 'T' t.TransactionID) ||
    !(pyStartsWith 'C' t.CustomerID)

/-- `get_valid_transaction` (`file_handler.py` lines 172-188): returns
`(invalid_count, valid_transactions)`. -/
def get_valid_transaction : List Transaction → Nat × List Transaction
  | [] => (0, [])
  | t :: ts =>
      let rest := get_valid_transaction ts
      if invalidTx t then (rest.1 + 1, rest.2) else (rest.1, t :: rest.2)

/-- `get_trnsaction_by_region` (`file_handler.py` lines 164-169). -/
def get_trnsaction_by_region (region : String) : List Transaction → List Transaction
  | [] => []
  | t :: ts =>
      if t.Region = region then t :: get_trnsaction_by_region region ts
      else get_trnsaction_by_region region ts

/-- The keep-test of the `get_transaction_by_amout` loop
(`file_handler.py` lines 193-199): a transaction is kept unless a supplied
bound excludes its derived amount. -/
def amountKeep (min_amount max_amount : Option Rat) (t : Transaction) : Bool :=
  let amount := (t.Quantity : Rat) * t.UnitPrice
  !(match min_amount with | some m => decide (amount < m) | none => false) &&
  !(match max_amount with | some m => decide (m < amount) | none => false)

/-- The list built by the `get_transaction_by_amout` loop. -/
def amountFilter (min_amount max_amount : Option Rat) : List Transaction → List Transaction
  | [] => []
  | t :: ts =>
      if amountKeep min_amount max_amount t then t :: amountFilter min_amount max_amount ts
      else amountFilter min_amount max_amount ts

/-- `get_transaction_by_amout` (`file_handler.py` lines 190-203): returns the
kept transactions together with the `filtered_by_amount` count it writes into
`filter_summary` (`before_count - len(valid_transactions)`). -/
def get_transaction_by_amout (min_amount max_amount : Option Rat)
    (valid_transactions : List Transaction) : List Transaction × Nat :=
  let kept := amountFilter min_amount max_amount valid_transactions
  (kept, valid_transactions.length - kept.length)

/-- The `filter_summary` dictionary of `validate_and_filter`
(`file_handler.py` lines 137-143). All Python subtractions producing these
counts are nonnegative, so `Nat` values coincide with the Python integers. -/
structure FilterSummary where
  total_input : Nat
  invalid : Nat
  filtered_by_region : Nat
  filtered_by_amount : Nat
  final_count : Nat
deriving Repr, DecidableEq

/-- `validate_and_filter` (`file_handler.py` lines 97-160). Note the region
filter is guarded by Python truthiness (`if region:`, line 149), so it runs
only for a supplied *non-empty* region string; the amount filter is guarded by
`is not None` tests (line 155). -/
def validate_and_filter (transactions : List Transaction) (region : Option String)
    (min_amount max_amount : Option Rat) :
    List Transaction × Nat × FilterSummary :=
  let v := get_valid_transaction transactions
  let invalid_count := v.1
  let afterRegion : List Transaction × Nat :=
    match region with
    | some r =>
        if r ≠ "" then
          let kept := get_trnsaction_by_region r v.2
          (kept, v.2.length - kept.length)
        else (v.2, 0)
    | none => (v.2, 0)
  let afterAmount : List Transaction × Nat :=
    if min_amount.isSome || max_amount.isSome then
      get_transaction_by_amout min_amount max_amount afterRegion.1
    else (afterRegion.1, 0)
  (afterAmount.1, invalid_count,
    { total_input := transactions.length
      invalid := invalid_count
      filtered_by_region := afterRegion.2
      filtered_by_amount := afterAmount.2
      final_count := afterAmount.1.length })

/-! ## Stable sort model (Python `sorted`) -/

/-- Insert `a` after every existing element `b` with `le b a`; used to model
one step of a stable sort: on ties the already-present (earlier) element stays
first, as CPython's stable sort guarantees. -/
def insertSorted (le : α → α → Bool) (a : α) : List α → List α
  | [] => [a]
  | b :: l => if le b a then b :: insertSorted le a l else a :: b :: l

/-- `sorted(l, key=..., reverse=...)`: stable sort with respect to the boolean
comparison `le` (for `reverse=True` the key comparison is flipped, which is
how CPython realises descending order while keeping ties in encounter
order). -/
def pySorted (le : α → α → Bool) (l : List α) : List α :=
  l.foldl (fun acc a => insertSorted le a acc) []

/-! ## `data_processor.py` -/

/-- `calculate_total_revenue` (`data_processor.py` lines 1-18). The
`except KeyError` branch is unreachable for total records. -/
def calculate_total_revenue (transactions : List Transaction) : Rat :=
  transactions.foldl (fun acc t => acc + (t.Quantity : Rat) * t.UnitPrice) 0

/-- The per-region accumulator dictionary of `region_wise_sales` before the
percentage pass (`data_processor.py` lines 56-63). -/
structure RegionAcc where
  total_sales : Rat
  transaction_count : Nat
deriving Repr, DecidableEq

/-- A region entry after the percentage key has been added
(`data_processor.py` lines 65-69). -/
structure RegionStat where
  total_sales : Rat
  transaction_count : Nat
  percentage : Rat
deriving Repr, DecidableEq

/-- Python dictionary update for the region grouping: an existing key is
updated in place, a missing key is appended (insertion order), with the
`+= sales_amount` / `+= 1` accumulation of lines 62-63. -/
def updateRegion (stats : List (String × RegionAcc)) (region : String) (amount : Rat) :
    List (String × RegionAcc) :=
  match stats with
  | [] => [(region, ⟨amount, 1⟩)]
  | (r, s) :: rest =>
      if r = region then (r, ⟨s.total_sales + amount, s.transaction_count + 1⟩) :: rest
      else (r, s) :: updateRegion rest region amount

/-- Python `round(x, 2)` on our exact rationals: round `x * 100` to the
nearest integer, ties to the even integer (banker's rounding), divide back
by 100. -/
def pyRound2 (x : Rat) : Rat :=
  let y := x * 100
  let n := ⌊y⌋
  let f := y - n
  let r : Int :=
    if f < 1/2 then n
    else if 1/2 < f then n + 1
    else if n % 2 = 0 then n else n + 1
  (r : Rat) / 100

/-- One iteration of the grouping loop of `region_wise_sales`
(`data_processor.py` lines 48-63): updates the per-region dictionary and the
running grand total `total_sales`. -/
def regionStep (acc : List (String × RegionAcc) × Rat) (t : Transaction) :
    List (String × RegionAcc) × Rat :=
  let amt := (t.Quantity : Rat) * t.UnitPrice
  (updateRegion acc.1 t.Region amt, acc.2 + amt)

/-- `region_wise_sales` (`data_processor.py` lines 21-73): one grouping pass
accumulating both the per-region dictionary and the running grand total, a
second pass adding the rounded percentage (0.0 when the grand total is not
positive), then a stable sort by `total_sales` descending. -/
def region_wise_sales (transactions : List Transaction) :
    List (String × RegionStat) :=
  let grouped : List (String × RegionAcc) × Rat :=
    transactions.foldl regionStep ([], 0)
  let total_sales := grouped.2
  let withPct : List (String × RegionStat) :=
    grouped.1.map (fun e =>
      (e.1, ⟨e.2.total_sales, e.2.transaction_count,
        if 0 < total_sales then pyRound2 (e.2.total_sales / total_sales * 100) else 0⟩))
  pySorted (fun a b => decide (b.2.total_sales ≤ a.2.total_sales)) withPct

/-- The per-product accumulator of `get_product_stats`
(`data_processor.py` lines 290-297). -/
structure ProductStat where
  total_quantity : Int
  total_revenue : Rat
deriving Repr, DecidableEq

/-- Python dictionary update for the product grouping
(`data_processor.py` lines 290-297). -/
def updateProduct (stats : List (String × ProductStat)) (name : String)
    (quantity : Int) (unit_price : Rat) : List (String × ProductStat) :=
  match stats with
  | [] => [(name, ⟨quantity, (quantity : Rat) * unit_price⟩)]
  | (p, s) :: rest =>
      if p = name then
        (p, ⟨s.total_quantity + quantity,
             s.total_revenue + (quantity : Rat) * unit_price⟩) :: rest
      else (p, s) :: updateProduct rest name quantity unit_price

/-- `get_product_stats` (`data_processor.py` lines 281-297). -/
def get_product_stats (transactions : List Transaction) : List (String × ProductStat) :=
  transactions.foldl (fun acc t => updateProduct acc t.ProductName t.Quantity t.UnitPrice) []

/-- `top_selling_products` (`data_processor.py` lines 75-106): sort the
grouped product stats by `total_quantity` descending (stable), keep the first
`n`, and project to `(name, total_quantity, total_revenue)` tuples. -/
def top_selling_products (transactions : List Transaction) (n : Nat) :
    List (String × Int × Rat) :=
  let sorted_products :=
    pySorted (fun a b => decide (b.2.total_quantity ≤ a.2.total_quantity))
      (get_product_stats transactions)
  (sorted_products.take n).map (fun e => (e.1, e.2.total_quantity, e.2.total_revenue))

/-- The per-date accumulator of `daily_sales_trend` before the
`unique_customers` list is collapsed (`data_processor.py` lines 204-213). -/
structure DayAcc where
  revenue : Rat
  transaction_count : Nat
  unique_customers : List String
deriving Repr, DecidableEq

/-- A date entry after `unique_customers` is replaced by the size of its set
(`data_processor.py` lines 215-216). -/
structure DayStat where
  revenue : Rat
  transaction_count : Nat
  unique_customers : Nat
deriving Repr, DecidableEq

/-- Python dictionary update for the date grouping
(`data_processor.py` lines 204-213). -/
def updateDay (stats : List (String × DayAcc)) (date customer_id : String)
    (amount : Rat) : List (String × DayAcc) :=
  match stats with
  | [] => [(date, ⟨amount, 1, [customer_id]⟩)]
  | (d, s) :: rest =>
      if d = date then
        (d, ⟨s.revenue + amount, s.transaction_count + 1,
             s.unique_customers ++ [customer_id]⟩) :: rest
      else (d, s) :: updateDay rest date customer_id amount

/-- `daily_sales_trend` (`data_processor.py` lines 169-221): group by date,
collapse the customer list to its number of distinct entries
(`len(set(...))`), and sort by the date string ascending (stable). -/
def daily_sales_trend (transactions : List Transaction) : List (String × DayStat) :=
  let date_stats : List (String × DayAcc) :=
    transactions.foldl
      (fun acc t => updateDay acc t.Date t.CustomerID ((t.Quantity : Rat) * t.UnitPrice)) []
  let finalized : List (String × DayStat) :=
    date_stats.map (fun e =>
      (e.1, ⟨e.2.revenue, e.2.transaction_count, e.2.unique_customers.dedup.length⟩))
  pySorted (fun a b => charListLe a.1.data b.1.data) finalized

/-- One iteration of the `find_peak_sales_day` scan
(`data_processor.py` lines 238-242): the running triple is replaced only when
the day's revenue strictly exceeds the running maximum. -/
def peakStep (acc : Option String × Rat × Nat) (e : String × DayStat) :
    Option String × Rat × Nat :=
  if acc.2.1 < e.2.revenue then (some e.1, e.2.revenue, e.2.transaction_count) else acc

/-- `find_peak_sales_day` (`data_processor.py` lines 223-244): scan the daily
trend starting from `(None, 0.0, 0)`. -/
def find_peak_sales_day (transactions : List Transaction) : Option String × Rat × Nat :=
  (daily_sales_trend transactions).foldl peakStep (none, 0, 0)

/-! ## `api_handler.py` -/

/-- One value of the `product_mapping` dictionary built by
`create_product_mapping` (`api_handler.py` lines 61-75). -/
structure CatalogEntry where
  title : String
  category : String
  brand : String
  rating : Rat
deriving Repr, DecidableEq

/-- The catalog: numeric product id mapped to its entry, insertion ordered. -/
abbrev ProductMapping := List (Int × CatalogEntry)

/-- `product_id in product_mapping` / `product_mapping[product_id]`. -/
def lookupCatalog (m : ProductMapping) (k : Int) : Option CatalogEntry :=
  match m with
  | [] => none
  | (i, e) :: rest => if i = k then some e else lookupCatalog rest k

/-- Python `s.lstrip(chars)`: drop every leading character belonging to the
given character set. -/
def pyLstrip (chars : List Char) (s : String) : String :=
  ⟨s.data.dropWhile (fun c => chars.contains c)⟩

/-- The numeric-id extraction of `enrich_sales_data`
(`api_handler.py` line 120): `int(product_id_str.lstrip('P1'))`, where the
stripped character set is the fixed literal `{'P', '1'}`; a `ValueError`
from `int` is modelled as `none`. -/
def extractProductId (product_id_str : String) : Option Int :=
  pyInt (pyLstrip ['P', '1'] product_id_str)

/-- An enriched transaction: the copied original record plus the four API
fields (`api_handler.py` lines 117-137). -/
structure EnrichedTransaction where
  base : Transaction
  API_Category : Option String
  API_Brand : Option String
  API_Rating : Option Rat
  API_Match : Bool
deriving Repr, DecidableEq

/-- Body of the `enrich_sales_data` loop for one transaction
(`api_handler.py` lines 116-137): extract the numeric id, look it up, and
either copy the catalog fields (match) or set the API fields to `None` with
`API_Match = False`; extraction failure lands in the `except` branch with the
same unmatched outcome. -/
def enrichTransaction (product_mapping : ProductMapping) (t : Transaction) :
    EnrichedTransaction :=
  match extractProductId t.ProductID with
  | some product_id =>
      match lookupCatalog product_mapping product_id with
      | some info => ⟨t, some info.category, some info.brand, some info.rating, true⟩
      | none => ⟨t, none, none, none, false⟩
  | none => ⟨t, none, none, none, false⟩

/-- `save_enriched_data` (`api_handler.py` lines 145-167), modelled by its
control effect only: it evaluates `enriched_transactions[0]` for the header
row, so an empty list raises `IndexError` (`none`); otherwise the write
succeeds. -/
def save_enriched_data (enriched_transactions : List EnrichedTransaction) : Option Unit :=
  match enriched_transactions with
  | [] => none
  | _ => some ()

/-- `enrich_sales_data` (`api_handler.py` lines 77-142): enrich every
transaction, then call `save_enriched_data`; an exception escaping that call
propagates out of `enrich_sales_data` (modelled as `none`). -/
def enrich_sales_data (transactions : List Transaction)
    (product_mapping : ProductMapping) : Option (List EnrichedTransaction) :=
  let enriched_transactions := transactions.map (enrichTransaction product_mapping)
  match save_enriched_data enriched_transactions with
  | some _ => some enriched_transactions
  | none => none

/-! ## Sample data used by concrete theorems and witnesses -/

/-- A well-formed northern transaction. -/
def txNorth : Transaction :=
  ⟨"T001", "2024-12-01", "P101", "Laptop", 2, 45000, "C001", "North"⟩

/-- A well-formed southern transaction. -/
def txSouth : Transaction :=
  ⟨"T002", "2024-12-02", "P102", "Mouse", 3, 500, "C002", "South"⟩

/-- A transaction on the later of two days with tied revenue. -/
def txDay2 : Transaction :=
  ⟨"T010", "2024-12-02", "P110", "Pen", 1, 500, "C010", "East"⟩

/-- A transaction on the earlier of two days with tied revenue. -/
def txDay1 : Transaction :=
  ⟨"T011", "2024-12-01", "P111", "Pad", 1, 500, "C011", "West"⟩

/-! ## Theorems -/

/-- C8: on the empty transaction list the aggregate functions raise nothing
and return their empty values: total revenue `0`, region statistics `{}`,
top products `[]`, and no peak day (`None` date, with the scan's initial
`(None, 0.0, 0)` triple). -/
theorem empty_input_aggregates :
    calculate_total_revenue [] = 0 ∧
    region_wise_sales [] = [] ∧
    top_selling_products [] 5 = [] ∧
    find_peak_sales_day [] = (none, 0, 0) :=
  ⟨rfl, rfl, rfl, rfl⟩

/-- C9: a raw line that is well-formed except for quantity `-5` is parsed
successfully (no sign check in the parser, `Quantity = -5`), and the parsed
record is then rejected by structural validation as invalid, incrementing
`invalid` by exactly 1 and excluding it from the valid output. -/
theorem negative_quantity_scenario :
    parse_transactions ["T001|2024-12-01|P101|Laptop|-5|45000|C001|North"]
        = [⟨"T001", "2024-12-01", "P101", "Laptop", -5, 45000, "C001", "North"⟩]
    ∧ get_valid_transaction
        [⟨"T001", "2024-12-01", "P101", "Laptop", -5, 45000, "C001", "North"⟩] = (1, [])
    ∧ validate_and_filter
        (parse_transactions ["T001|2024-12-01|P101|Laptop|-5|45000|C001|North"])
        none none none
      = ([], 1, ⟨1, 1, 0, 0, 0⟩) := by
  have hdig : digitsVal ("45000" : String).data = 45000 := by decide
  have hraw : parseLine "T001|2024-12-01|P101|Laptop|-5|45000|C001|North"
      = some ⟨"T001", "2024-12-01", "P101", "Laptop", -5,
          ((1 : Int) : Rat) * ((digitsVal ("45000" : String).data : Nat) : Rat),
          "C001", "North"⟩ := rfl
  rw [hdig] at hraw
  have hval : ((1 : Int) : Rat) * ((45000 : Nat) : Rat) = (45000 : Rat) := by norm_num
  rw [hval] at hraw
  have hparse : parse_transactions ["T001|2024-12-01|P101|Laptop|-5|45000|C001|North"]
      = [⟨"T001", "2024-12-01", "P101", "Laptop", -5, 45000, "C001", "North"⟩] := by
    simp [parse_transactions, hraw]
  have hvalid : get_valid_transaction
      [⟨"T001", "2024-12-01", "P101", "Laptop", -5, 45000, "C001", "North"⟩] = (1, []) := by
    decide
  refine ⟨hparse, hvalid, ?_⟩
  rw [hparse]
  decide

/-- C4 (code bug): with an empty product catalog the enricher itself marks
every transaction unmatched, but `enrich_sales_data` unconditionally calls
`save_enriched_data`, which evaluates `enriched_transactions[0]` for the
header row; on the empty transaction list this raises an uncaught
`IndexError`, so `enrich_sales_data` aborts instead of returning zero
records. On any non-empty list the claimed behavior holds: one record per
transaction, all API fields `None` and `API_Match = False`. -/
theorem enrich_sales_data_empty_catalog :
    enrich_sales_data [] [] = none ∧
    ∀ (t : Transaction) (ts : List Transaction),
      enrich_sales_data (t :: ts) []
        = some ((t :: ts).map (fun u => ⟨u, none, none, none, false⟩)) := by
  constructor
  · rfl
  · intro t ts
    have hone : ∀ u : Transaction,
        enrichTransaction [] u = ⟨u, none, none, none, false⟩ := by
      intro u
      unfold enrichTransaction
      cases extractProductId u.ProductID <;> simp [lookupCatalog]
    simp [enrich_sales_data, save_enriched_data, hone]

/-- C5: the numeric-id extraction strips all leading characters from the
fixed literal set `{'P', '1'}` and parses the remainder as an integer;
`"P101"` therefore maps to catalog id `1` (stripping leaves `"01"`), and
`"P1"` is exhausted by the strip, fails extraction, and yields an unmatched
record with null API fields. -/
theorem extract_product_id_spec :
    (∀ s : String,
        extractProductId s = pyInt ⟨s.data.dropWhile (fun c => c == 'P' || c == '1')⟩) ∧
    extractProductId "P101" = some 1 ∧
    (∀ (m : ProductMapping) (t : Transaction), t.ProductID = "P101" →
      enrichTransaction m t =
        match lookupCatalog m 1 with
        | some info => ⟨t, some info.category, some info.brand, some info.rating, true⟩
        | none => ⟨t, none, none, none, false⟩) ∧
    (∀ (m : ProductMapping) (t : Transaction), t.ProductID = "P1" →
      enrichTransaction m t = ⟨t, none, none, none, false⟩) := by
  have hstrip : ∀ s : String,
      extractProductId s = pyInt ⟨s.data.dropWhile (fun c => c == 'P' || c == '1')⟩ := by
    intro s
    unfold extractProductId pyLstrip
    have hc : (fun c => (['P', '1'] : List Char).contains c)
        = (fun c : Char => c == 'P' || c == '1') := by
      funext c
      by_cases h1 : c = 'P' <;> by_cases h2 : c = '1' <;> simp [h1, h2]
    rw [hc]
  refine ⟨hstrip, by decide, ?_, ?_⟩
  · intro m t ht
    unfold enrichTransaction
    rw [ht, show extractProductId "P101" = some 1 from by decide]
  · intro m t ht
    unfold enrichTransaction
    rw [ht, show extractProductId "P1" = none from by decide]

/-- Witness for C5 at concrete inputs: with a catalog containing id 1, a
transaction with ProductID `"P101"` is enriched from that entry, and with an
empty catalog a transaction with ProductID `"P1"` comes back unmatched. -/
theorem extract_product_id_witness :
    enrichTransaction [(1, ⟨"iPhone 9", "smartphones", "Apple", 4⟩)]
        ⟨"T001", "2024-12-01", "P101", "Laptop", 2, 45000, "C001", "North"⟩
      = ⟨⟨"T001", "2024-12-01", "P101", "Laptop", 2, 45000, "C001", "North"⟩,
          some "smartphones", some "Apple", some 4, true⟩
    ∧ enrichTransaction []
        ⟨"T001", "2024-12-01", "P1", "Laptop", 2, 45000, "C001", "North"⟩
      = ⟨⟨"T001", "2024-12-01", "P1", "Laptop", 2, 45000, "C001", "North"⟩,
          none, none, none, false⟩ := by
  constructor
  · rw [extract_product_id_spec.2.2.1 [(1, ⟨"iPhone 9", "smartphones", "Apple", 4⟩)]
        ⟨"T001", "2024-12-01", "P101", "Laptop", 2, 45000, "C001", "North"⟩ rfl]
    rfl
  · exact extract_product_id_spec.2.2.2 []
      ⟨"T001", "2024-12-01", "P1", "Laptop", 2, 45000, "C001", "North"⟩ rfl

/-- `get_trnsaction_by_region` is exactly a filter on equality of the
`Region` field (case-sensitive, no normalization). -/
theorem get_trnsaction_by_region_eq_filter (r : String) (l : List Transaction) :
    get_trnsaction_by_region r l = l.filter (fun t => decide (t.Region = r)) := by
  induction l with
  | nil => rfl
  | cons t ts ih =>
      by_cases h : t.Region = r <;>
        simp [get_trnsaction_by_region, List.filter, h, ih]

/-- C6 (amended: the supplied region must be non-empty, since the code
guards the filter with Python truthiness `if region:`): for every supplied
non-empty region the region-filter step keeps exactly the transactions whose
`Region` equals it, compared case-sensitively with no normalization, and
`filtered_by_region` records how many this step removed. -/
theorem region_filter_nonempty_spec (ts : List Transaction) (r : String) (hr : r ≠ "")
    (min_amount max_amount : Option Rat) :
    get_trnsaction_by_region r (get_valid_transaction ts).2
        = (get_valid_transaction ts).2.filter (fun t => decide (t.Region = r))
    ∧ (validate_and_filter ts (some r) min_amount max_amount).2.2.filtered_by_region
        = (get_valid_transaction ts).2.length
          - (get_trnsaction_by_region r (get_valid_transaction ts).2).length := by
  refine ⟨get_trnsaction_by_region_eq_filter r _, ?_⟩
  simp [validate_and_filter, hr]

/-- Counterexample to C6 as stated: with the supplied region `""` the filter
step is skipped entirely (Python `if region:` is false for the empty string),
so a transaction whose `Region` is `"North"` — different from the supplied
region — is kept and `filtered_by_region` stays 0. -/
theorem region_filter_empty_string_cex :
    (validate_and_filter [txNorth] (some "") none none).1 = [txNorth]
    ∧ txNorth.Region ≠ ""
    ∧ (validate_and_filter [txNorth] (some "") none none).2.2.filtered_by_region = 0 := by
  refine ⟨by decide, by decide, by decide⟩

/-- Witness for C6's amended theorem at a concrete input. -/
theorem region_filter_nonempty_witness :
    ("North" : String) ≠ ""
    ∧ get_trnsaction_by_region "North" (get_valid_transaction [txNorth, txSouth]).2
        = (get_valid_transaction [txNorth, txSouth]).2.filter
            (fun t => decide (t.Region = "North"))
    ∧ (validate_and_filter [txNorth, txSouth] (some "North") none none).2.2.filtered_by_region
        = (get_valid_transaction [txNorth, txSouth]).2.length
          - (get_trnsaction_by_region "North" (get_valid_transaction [txNorth, txSouth]).2).length :=
  ⟨by decide,
   (region_filter_nonempty_spec [txNorth, txSouth] "North" (by decide) none none).1,
   (region_filter_nonempty_spec [txNorth, txSouth] "North" (by decide) none none).2⟩

/-- Validation partitions the input: invalid count plus surviving length
equals the input length. -/
theorem get_valid_transaction_count (ts : List Transaction) :
    (get_valid_transaction ts).1 + (get_valid_transaction ts).2.length = ts.length := by
  induction ts with
  | nil => rfl
  | cons t ts ih =>
      simp only [get_valid_transaction]
      split <;> simp <;> omega

/-- The region filter never grows the list. -/
theorem get_trnsaction_by_region_length_le (r : String) (l : List Transaction) :
    (get_trnsaction_by_region r l).length ≤ l.length := by
  induction l with
  | nil => simp [get_trnsaction_by_region]
  | cons t ts ih =>
      simp only [get_trnsaction_by_region]
      split <;> simp <;> omega

/-- The amount filter never grows the list. -/
theorem amountFilter_length_le (a b : Option Rat) (l : List Transaction) :
    (amountFilter a b l).length ≤ l.length := by
  induction l with
  | nil => simp [amountFilter]
  | cons t ts ih =>
      simp only [amountFilter]
      split <;> simp <;> omega

/-- C1: for every transaction list and every combination of the optional
`region`, `min_amount` and `max_amount` arguments, the summary returned by
`validate_and_filter` satisfies
`final_count = total_input - invalid - filtered_by_region - filtered_by_amount`
(with `filtered_by_amount` computed against the region-filtered set). -/
theorem validate_and_filter_count_identity (ts : List Transaction)
    (region : Option String) (min_amount max_amount : Option Rat) :
    ((validate_and_filter ts region min_amount max_amount).2.2.final_count : Int)
      = ((validate_and_filter ts region min_amount max_amount).2.2.total_input : Int)
        - ((validate_and_filter ts region min_amount max_amount).2.2.invalid : Int)
        - ((validate_and_filter ts region min_amount max_amount).2.2.filtered_by_region : Int)
        - ((validate_and_filter ts region min_amount max_amount).2.2.filtered_by_amount : Int) := by
  have hv := get_valid_transaction_count ts
  rcases region with _ | r
  · by_cases ha : (min_amount.isSome || max_amount.isSome) = true
    · have hlen := amountFilter_length_le min_amount max_amount (get_valid_transaction ts).2
      simp [validate_and_filter, ha, if_true, get_transaction_by_amout]
      omega
    · simp [validate_and_filter, ha, if_false]
      omega
  · by_cases hr : r ≠ ""
    · have hreg := get_trnsaction_by_region_length_le r (get_valid_transaction ts).2
      by_cases ha : (min_amount.isSome || max_amount.isSome) = true
      · have hlen := amountFilter_length_le min_amount max_amount
          (get_trnsaction_by_region r (get_valid_transaction ts).2)
        simp [validate_and_filter, hr, ha, if_true, get_transaction_by_amout]
        omega
      · simp [validate_and_filter, hr, ha, if_true, if_false]
        omega
    · by_cases ha : (min_amount.isSome || max_amount.isSome) = true
      · have hlen := amountFilter_length_le min_amount max_amount (get_valid_transaction ts).2
        simp [validate_and_filter, hr, ha, if_true, if_false, get_transaction_by_amout]
        omega
      · simp [validate_and_filter, hr, ha, if_false]
        omega

/-- The surviving valid transactions form a sublist of the input. -/
theorem get_valid_transaction_sublist (ts : List Transaction) :
    List.Sublist (get_valid_transaction ts).2 ts := by
  induction ts with
  | nil => simp [get_valid_transaction]
  | cons t ts ih =>
      simp only [get_valid_transaction]
      split
      · exact ih.cons t
      · exact ih.cons₂ t

/-- The region filter returns a sublist of its input. -/
theorem get_trnsaction_by_region_sublist (r : String) (l : List Transaction) :
    List.Sublist (get_trnsaction_by_region r l) l := by
  induction l with
  | nil => simp [get_trnsaction_by_region]
  | cons t ts ih =>
      simp only [get_trnsaction_by_region]
      split
      · exact ih.cons₂ t
      · exact ih.cons t

/-- The amount filter returns a sublist of its input. -/
theorem amountFilter_sublist (a b : Option Rat) (l : List Transaction) :
    List.Sublist (amountFilter a b l) l := by
  induction l with
  | nil => simp [amountFilter]
  | cons t ts ih =>
      simp only [amountFilter]
      split
      · exact ih.cons₂ t
      · exact ih.cons t

/-- C10: for every input list and every filter combination, the
`valid_transactions` list returned by `validate_and_filter` is an
order-preserving subsequence (`List.Sublist`) of the input; its elements are
the very input records, so no field of any transaction is modified by
validation, the region filter, or the amount filter. -/
theorem validate_and_filter_sublist (ts : List Transaction)
    (region : Option String) (min_amount max_amount : Option Rat) :
    List.Sublist (validate_and_filter ts region min_amount max_amount).1 ts := by
  have hv := get_valid_transaction_sublist ts
  rcases region with _ | r
  · by_cases ha : (min_amount.isSome || max_amount.isSome) = true
    · simp [validate_and_filter, ha, if_true, get_transaction_by_amout]
      exact (amountFilter_sublist _ _ _).trans hv
    · simp [validate_and_filter, ha, if_false]
      exact hv
  · by_cases hr : r ≠ ""
    · have hreg := (get_trnsaction_by_region_sublist r (get_valid_transaction ts).2).trans hv
      by_cases ha : (min_amount.isSome || max_amount.isSome) = true
      · simp [validate_and_filter, hr, ha, if_true, get_transaction_by_amout]
        exact (amountFilter_sublist _ _ _).trans hreg
      · simp [validate_and_filter, hr, ha, if_true, if_false]
        exact hreg
    · by_cases ha : (min_amount.isSome || max_amount.isSome) = true
      · simp [validate_and_filter, hr, ha, if_true, if_false, get_transaction_by_amout]
        exact (amountFilter_sublist _ _ _).trans hv
      · simp [validate_and_filter, hr, ha, if_false]
        exact hv

/-- C7: `parse_transactions` produces no record for a line that does not
split into exactly 8 pipe-delimited fields, none for a line whose quantity or
unit-price field fails numeric conversion after comma stripping, continues
with the remaining lines after each such drop, and returns at most one record
per input line. -/
theorem parse_transactions_drop_spec :
    (∀ raw_lines : List String,
        (parse_transactions raw_lines).length ≤ raw_lines.length) ∧
    (∀ line : String, (splitOnChar '|' (pyStrip line.data)).length ≠ 8 →
        parseLine line = none) ∧
    (∀ (line : String) (f1 f2 f3 f4 f5 f6 f7 f8 : List Char),
        splitOnChar '|' (pyStrip line.data) = [f1, f2, f3, f4, f5, f6, f7, f8] →
        pyInt ⟨removeChar ',' f5⟩ = none ∨ pyFloat ⟨removeChar ',' f6⟩ = none →
        parseLine line = none) ∧
    (∀ (line : String) (rest : List String), parseLine line = none →
        parse_transactions (line :: rest) = parse_transactions rest) := by
  refine ⟨fun raw_lines => List.length_filterMap_le _ _, ?_, ?_, ?_⟩
  · intro line h
    unfold parseLine
    generalize hs : splitOnChar '|' (pyStrip line.data) = ps at h ⊢
    rcases ps with _ | ⟨f1, _ | ⟨f2, _ | ⟨f3, _ | ⟨f4, _ | ⟨f5, _ | ⟨f6, _ | ⟨f7, _ |
      ⟨f8, _ | ⟨f9, ps'⟩⟩⟩⟩⟩⟩⟩⟩⟩ <;> simp_all
  · intro line f1 f2 f3 f4 f5 f6 f7 f8 hs hconv
    unfold parseLine
    rw [hs]
    simp only [List.map]
    rcases hconv with hc | hc
    · rw [hc]
    · rcases hq : pyInt ⟨removeChar ',' f5⟩ with _ | q
      · rfl
      · rw [hc]
  · intro line rest h
    simp [parse_transactions, List.filterMap_cons, h]

/-- Witness for C7 at concrete inputs: a 2-field line is dropped, a line with
non-numeric quantity is dropped, a dropped line leaves the rest of the parse
unchanged, and the output is never longer than the input. -/
theorem parse_transactions_drop_witness :
    parseLine "a|b" = none
    ∧ parseLine "T001|2024-12-01|P101|Laptop|two|500|C001|North" = none
    ∧ parse_transactions ["a|b", "T001|2024-12-01|P101|Laptop|-5|45000|C001|North"]
        = parse_transactions ["T001|2024-12-01|P101|Laptop|-5|45000|C001|North"]
    ∧ (parse_transactions ["a|b"]).length ≤ 1 := by
  have h := parse_transactions_drop_spec
  refine ⟨h.2.1 "a|b" (by decide),
          h.2.2.1 "T001|2024-12-01|P101|Laptop|two|500|C001|North"
            ("T001" : String).data ("2024-12-01" : String).data ("P101" : String).data
            ("Laptop" : String).data ("two" : String).data ("500" : String).data
            ("C001" : String).data ("North" : String).data
            (by decide) (Or.inl (by decide)),
          h.2.2.2 "a|b" _ (h.2.1 "a|b" (by decide)),
          h.1 ["a|b"]⟩

/-- One scan step never decreases the running maximum. -/
theorem peakStep_fst_le (s : Option String × Rat × Nat) (e : String × DayStat) :
    s.2.1 ≤ (peakStep s e).2.1 := by
  unfold peakStep
  split
  · next h => exact le_of_lt h
  · exact le_refl _

/-- After one scan step the running maximum dominates the element seen. -/
theorem peakStep_rev_le (s : Option String × Rat × Nat) (e : String × DayStat) :
    e.2.revenue ≤ (peakStep s e).2.1 := by
  unfold peakStep
  split
  · exact le_refl _
  · next h => exact le_of_not_lt h

/-- The scan's running maximum is monotone along the fold. -/
theorem peak_foldl_mono (l : List (String × DayStat)) (s : Option String × Rat × Nat) :
    s.2.1 ≤ (l.foldl peakStep s).2.1 := by
  induction l generalizing s with
  | nil => exact le_refl _
  | cons e t ih => exact le_trans (peakStep_fst_le s e) (ih (peakStep s e))

/-- The final running maximum dominates every scanned revenue. -/
theorem peak_foldl_ub (l : List (String × DayStat)) (s : Option String × Rat × Nat) :
    ∀ e ∈ l, e.2.revenue ≤ (l.foldl peakStep s).2.1 := by
  induction l generalizing s with
  | nil => intro e he; cases he
  | cons e' t ih =>
      intro e he
      rcases List.mem_cons.1 he with rfl | he
      · exact le_trans (peakStep_rev_le s e) (peak_foldl_mono t (peakStep s e))
      · exact ih (peakStep s e') e he

/-- If no scanned revenue strictly exceeds the running maximum, the scan
state never changes (a day merely equal to the maximum never replaces it). -/
theorem peak_foldl_id (l : List (String × DayStat)) (s : Option String × Rat × Nat)
    (h : ∀ e ∈ l, e.2.revenue ≤ s.2.1) : l.foldl peakStep s = s := by
  induction l with
  | nil => rfl
  | cons e t ih =>
      have hstep : peakStep s e = s := by
        unfold peakStep
        rw [if_neg (not_lt.2 (h e (List.mem_cons_self e t)))]
      rw [List.foldl_cons, hstep]
      exact ih (fun x hx => h x (List.mem_cons_of_mem e hx))

/-- If some scanned revenue strictly exceeds the initial running maximum,
the scan result is exactly the first entry attaining the final maximum:
its date, revenue and transaction count. -/
theorem peak_foldl_find (l : List (String × DayStat)) (s : Option String × Rat × Nat)
    (h : ∃ e ∈ l, s.2.1 < e.2.revenue) :
    ∃ e0, l.find? (fun e => decide ((l.foldl peakStep s).2.1 ≤ e.2.revenue)) = some e0
      ∧ (l.foldl peakStep s).1 = some e0.1
      ∧ (l.foldl peakStep s).2.1 = e0.2.revenue
      ∧ (l.foldl peakStep s).2.2 = e0.2.transaction_count := by
  induction l generalizing s with
  | nil => obtain ⟨e, he, _⟩ := h; cases he
  | cons e t ih =>
      simp only [List.foldl_cons]
      by_cases hc : s.2.1 < e.2.revenue
      · have hstep : peakStep s e = (some e.1, e.2.revenue, e.2.transaction_count) := by
          unfold peakStep
          rw [if_pos hc]
        simp only [hstep]
        by_cases hall : ∀ x ∈ t, x.2.revenue ≤ e.2.revenue
        · have hid : t.foldl peakStep (some e.1, e.2.revenue, e.2.transaction_count)
              = (some e.1, e.2.revenue, e.2.transaction_count) :=
            peak_foldl_id t _ hall
          rw [hid]
          refine ⟨e, ?_, rfl, rfl, rfl⟩
          rw [List.find?_cons_of_pos _ (by simp)]
        · push_neg at hall
          obtain ⟨x, hx, hgt⟩ := hall
          obtain ⟨e0, hfind, h1, h2, h3⟩ :=
            ih (some e.1, e.2.revenue, e.2.transaction_count) ⟨x, hx, hgt⟩
          refine ⟨e0, ?_, h1, h2, h3⟩
          have hne : ¬ ((t.foldl peakStep
              (some e.1, e.2.revenue, e.2.transaction_count)).2.1 ≤ e.2.revenue) :=
            not_le.2 (lt_of_lt_of_le hgt (peak_foldl_ub t _ x hx))
          rw [List.find?_cons_of_neg _ (by simpa using hne)]
          exact hfind
      · have hstep : peakStep s e = s := by
          unfold peakStep
          rw [if_neg hc]
        simp only [hstep]
        obtain ⟨x, hx, hgt⟩ := h
        have hxt : x ∈ t := by
          rcases List.mem_cons.1 hx with rfl | hxt
          · exact absurd hgt hc
          · exact hxt
        obtain ⟨e0, hfind, h1, h2, h3⟩ := ih s ⟨x, hxt, hgt⟩
        refine ⟨e0, ?_, h1, h2, h3⟩
        have hne : ¬ ((t.foldl peakStep s).2.1 ≤ e.2.revenue) :=
          not_le.2 (lt_of_le_of_lt (le_of_not_lt hc)
            (lt_of_lt_of_le hgt (peak_foldl_ub t s x hxt)))
        rw [List.find?_cons_of_neg _ (by simpa using hne)]
        exact hfind

/-- Membership in a stable-sort insertion. -/
theorem mem_insertSorted {α : Type} (le : α → α → Bool) (a x : α) (l : List α) :
    x ∈ insertSorted le a l ↔ x = a ∨ x ∈ l := by
  induction l with
  | nil => simp [insertSorted]
  | cons b t ih =>
      unfold insertSorted
      split
      · simp only [List.mem_cons, ih]
        tauto
      · simp only [List.mem_cons]

/-- Inserting into a sorted list keeps it sorted (for a total, transitive
boolean comparison). -/
theorem insertSorted_pairwise {α : Type} {le : α → α → Bool}
    (htot : ∀ a b, le a b = true ∨ le b a = true)
    (htrans : ∀ a b c, le a b = true → le b c = true → le a c = true)
    (a : α) (l : List α) (hl : l.Pairwise (fun x y => le x y = true)) :
    (insertSorted le a l).Pairwise (fun x y => le x y = true) := by
  induction l with
  | nil => simp [insertSorted]
  | cons b t ih =>
      rcases List.pairwise_cons.1 hl with ⟨hb, ht⟩
      unfold insertSorted
      by_cases hba : le b a = true
      · rw [if_pos hba]
        refine List.pairwise_cons.2 ⟨?_, ih ht⟩
        intro x hx
        rcases (mem_insertSorted le a x t).1 hx with rfl | hx
        · exact hba
        · exact hb x hx
      · rw [if_neg hba]
        have hab : le a b = true := (htot a b).resolve_right hba
        refine List.pairwise_cons.2 ⟨?_, hl⟩
        intro x hx
        rcases List.mem_cons.1 hx with rfl | hx
        · exact hab
        · exact htrans a b x hab (hb x hx)

/-- A stable sort produces a sorted list (for a total, transitive boolean
comparison). -/
theorem pySorted_pairwise {α : Type} {le : α → α → Bool}
    (htot : ∀ a b, le a b = true ∨ le b a = true)
    (htrans : ∀ a b c, le a b = true → le b c = true → le a c = true)
    (l : List α) :
    (pySorted le l).Pairwise (fun x y => le x y = true) := by
  have aux : ∀ (l' acc : List α), acc.Pairwise (fun x y => le x y = true) →
      (l'.foldl (fun acc a => insertSorted le a acc) acc).Pairwise
        (fun x y => le x y = true) := by
    intro l'
    induction l' with
    | nil => intro acc h; exact h
    | cons a t ih =>
        intro acc h
        exact ih _ (insertSorted_pairwise htot htrans a acc h)
  exact aux l [] (List.Pairwise.nil)

/-- The model of Python string `<=` is total. -/
theorem charListLe_total (a b : List Char) :
    charListLe a b = true ∨ charListLe b a = true := by
  induction a generalizing b with
  | nil => left; rfl
  | cons x xs ih =>
      cases b with
      | nil => right; rfl
      | cons y ys =>
          rcases Nat.lt_trichotomy x.toNat y.toNat with h | h | h
          · left
            simp [charListLe, h]
          · simp only [charListLe, h, Nat.lt_irrefl, if_false]
            exact ih ys
          · right
            simp [charListLe, h]

/-- The model of Python string `<=` is transitive. -/
theorem charListLe_trans (a b c : List Char) (hab : charListLe a b = true)
    (hbc : charListLe b c = true) : charListLe a c = true := by
  induction a generalizing b c with
  | nil => rfl
  | cons x xs ih =>
      cases b with
      | nil => simp [charListLe] at hab
      | cons y ys =>
          cases c with
          | nil => simp [charListLe] at hbc
          | cons z zs =>
              simp only [charListLe] at hab hbc ⊢
              rcases Nat.lt_trichotomy x.toNat y.toNat with h1 | h1 | h1 <;>
                rcases Nat.lt_trichotomy y.toNat z.toNat with h2 | h2 | h2 <;>
                simp_all <;>
                first
                  | omega
                  | (exact ih ys zs hab hbc)

/-- C3: `find_peak_sales_day` scans the chronologically sorted daily trend
and returns the date of strictly greatest daily revenue with that revenue and
that day's transaction count; on ties the earliest day is kept because a
revenue merely equal to the running maximum never replaces it (the returned
entry is the *first* one attaining the final maximum); and the date is `None`
exactly when no day has revenue `> 0`. -/
theorem find_peak_sales_day_spec (ts : List Transaction)
    (pd : Option String) (mr : Rat) (tc : Nat)
    (h : find_peak_sales_day ts = (pd, mr, tc)) :
    (daily_sales_trend ts).Pairwise (fun a b => charListLe a.1.data b.1.data = true)
    ∧ (∀ e ∈ daily_sales_trend ts, e.2.revenue ≤ mr)
    ∧ (pd = none ↔ ∀ e ∈ daily_sales_trend ts, e.2.revenue ≤ 0)
    ∧ (∀ d, pd = some d →
        ∃ e, (daily_sales_trend ts).find? (fun e => decide (mr ≤ e.2.revenue)) = some e
          ∧ e.1 = d ∧ e.2.revenue = mr ∧ e.2.transaction_count = tc) := by
  have hfold : (daily_sales_trend ts).foldl peakStep (none, 0, 0) = (pd, mr, tc) := h
  refine ⟨?_, ?_, ⟨?_, ?_⟩, ?_⟩
  · unfold daily_sales_trend
    exact pySorted_pairwise
      (fun (a b : String × DayStat) => charListLe_total a.1.data b.1.data)
      (fun (a b c : String × DayStat) hab hbc =>
        charListLe_trans a.1.data b.1.data c.1.data hab hbc) _
  · intro e he
    have hub := peak_foldl_ub (daily_sales_trend ts) (none, 0, 0) e he
    simp only [hfold] at hub
    exact hub
  · intro hnone e he
    by_contra hgt
    push_neg at hgt
    obtain ⟨e0, _, h1, _, _⟩ := peak_foldl_find (daily_sales_trend ts) (none, 0, 0)
      ⟨e, he, by simpa using hgt⟩
    simp only [hfold] at h1
    rw [hnone] at h1
    cases h1
  · intro hall
    have hid := peak_foldl_id (daily_sales_trend ts) (none, 0, 0)
      (by intro e he; simpa using hall e he)
    rw [hid] at hfold
    exact ((Prod.ext_iff.1 hfold).1).symm
  · intro d hd
    have hex : ∃ e ∈ daily_sales_trend ts, ((none, 0, 0) :
        Option String × Rat × Nat).2.1 < e.2.revenue := by
      by_contra hno
      push_neg at hno
      have hid := peak_foldl_id (daily_sales_trend ts) (none, 0, 0) hno
      rw [hid] at hfold
      have h1 : (none : Option String) = pd := (Prod.ext_iff.1 hfold).1
      rw [← h1] at hd
      cases hd
    obtain ⟨e0, hfind, h1, h2, h3⟩ := peak_foldl_find (daily_sales_trend ts) (none, 0, 0) hex
    simp only [hfold] at hfind h1 h2 h3
    refine ⟨e0, hfind, ?_, h2.symm, h3.symm⟩
    rw [hd] at h1
    injection h1 with h1
    exact h1.symm

/-- Witness for C3 on a concrete two-day tie: both days have revenue 500, the
scan keeps the earlier date `2024-12-01`, and the first entry of the sorted
trend attaining the maximum carries that date, revenue 500 and count 1. -/
theorem find_peak_sales_day_witness :
    ∃ e, (daily_sales_trend [txDay2, txDay1]).find?
        (fun e => decide ((500 : Rat) ≤ e.2.revenue)) = some e
      ∧ e.1 = "2024-12-01" ∧ e.2.revenue = 500 ∧ e.2.transaction_count = 1 := by
  have hpk : find_peak_sales_day [txDay2, txDay1] = (some "2024-12-01", 500, 1) := by
    norm_num +decide [find_peak_sales_day, daily_sales_trend, updateDay, pySorted,
      insertSorted, peakStep, charListLe, txDay2, txDay1,
      List.dedup_cons_of_not_mem, List.dedup_nil]
  exact (find_peak_sales_day_spec [txDay2, txDay1] (some "2024-12-01") 500 1 hpk).2.2.2
    "2024-12-01" rfl

/-- The revenue fold computes the sum of the per-transaction amounts. -/
theorem revenue_foldl (ts : List Transaction) (a : Rat) :
    ts.foldl (fun acc t => acc + (t.Quantity : Rat) * t.UnitPrice) a
      = a + (ts.map (fun t => (t.Quantity : Rat) * t.UnitPrice)).sum := by
  induction ts generalizing a with
  | nil => simp
  | cons t ts ih =>
      simp only [List.foldl_cons, List.map_cons, List.sum_cons, ih]
      ring

/-- Updating the region dictionary adds the amount to the total over all
entries. -/
theorem updateRegion_sum (stats : List (String × RegionAcc)) (r : String) (amt : Rat) :
    ((updateRegion stats r amt).map (fun e => e.2.total_sales)).sum
      = (stats.map (fun e => e.2.total_sales)).sum + amt := by
  induction stats with
  | nil => simp [updateRegion]
  | cons e rest ih =>
      rcases e with ⟨r', s⟩
      unfold updateRegion
      by_cases h : r' = r
      · rw [if_pos h]
        simp only [List.map_cons, List.sum_cons]
        ring
      · rw [if_neg h]
        simp only [List.map_cons, List.sum_cons, ih]
        ring

/-- The grouping fold of `region_wise_sales`: the running `total_sales`
accumulates the amounts, and the dictionary's per-region totals sum to the
same quantity. -/
theorem regionFold_spec (ts : List Transaction) :
    ∀ (s : List (String × RegionAcc)) (tot : Rat),
      (ts.foldl regionStep (s, tot)).2
          = tot + (ts.map (fun t => (t.Quantity : Rat) * t.UnitPrice)).sum
      ∧ ((ts.foldl regionStep (s, tot)).1.map (fun e => e.2.total_sales)).sum
          = (s.map (fun e => e.2.total_sales)).sum
            + (ts.map (fun t => (t.Quantity : Rat) * t.UnitPrice)).sum := by
  induction ts with
  | nil => intro s tot; simp
  | cons t ts ih =>
      intro s tot
      simp only [List.foldl_cons, regionStep, List.map_cons, List.sum_cons]
      obtain ⟨h1, h2⟩ := ih (updateRegion s t.Region ((t.Quantity : Rat) * t.UnitPrice))
        (tot + (t.Quantity : Rat) * t.UnitPrice)
      refine ⟨by rw [h1]; ring, ?_⟩
      rw [h2, updateRegion_sum]
      ring

/-- Inserting permutes: the result is the element consed on the input. -/
theorem insertSorted_perm {α : Type} (le : α → α → Bool) (a : α) (l : List α) :
    (insertSorted le a l).Perm (a :: l) := by
  induction l with
  | nil => exact List.Perm.refl _
  | cons b t ih =>
      unfold insertSorted
      split
      · exact (ih.cons b).trans (List.Perm.swap a b t)
      · exact List.Perm.refl _

/-- The stable sort is a permutation of its input. -/
theorem pySorted_perm {α : Type} (le : α → α → Bool) (l : List α) :
    (pySorted le l).Perm l := by
  have aux : ∀ (l' acc : List α),
      (l'.foldl (fun acc a => insertSorted le a acc) acc).Perm (l' ++ acc) := by
    intro l'
    induction l' with
    | nil => intro acc; exact List.Perm.refl _
    | cons a t ih =>
        intro acc
        have h1 := ih (insertSorted le a acc)
        have h2 : (t ++ insertSorted le a acc).Perm (t ++ (a :: acc)) :=
          List.Perm.append_left t (insertSorted_perm le a acc)
        have h3 : (t ++ (a :: acc)).Perm (a :: (t ++ acc)) := List.perm_middle
        simpa using (h1.trans (h2.trans h3))
  simpa using aux l []

/-- Rounding to 2 decimal places moves a rational by at most `1/200`. -/
theorem pyRound2_err (x : Rat) : |pyRound2 x - x| ≤ 1 / 200 := by
  simp only [pyRound2]
  set y := x * 100 with hy
  set n := ⌊y⌋ with hn
  have h0 : (0 : Rat) ≤ y - n := sub_nonneg.2 (Int.floor_le y)
  have h1 : y - (n : Rat) < 1 := by
    have := Int.lt_floor_add_one y
    linarith
  have key : ∀ r : Int, |(r : Rat) - y| ≤ 1 / 2 → |(r : Rat) / 100 - x| ≤ 1 / 200 := by
    intro r hb
    have heq : (r : Rat) / 100 - x = ((r : Rat) - y) / 100 := by
      rw [hy]
      ring
    rw [heq, abs_div, show |(100 : Rat)| = 100 from by norm_num]
    linarith
  split_ifs with hlt hgt heven
  · exact key n (by rw [abs_le]; constructor <;> linarith)
  · exact key (n + 1) (by rw [abs_le]; push_cast; constructor <;> linarith)
  · exact key n (by rw [abs_le]; constructor <;> linarith)
  · exact key (n + 1) (by rw [abs_le]; push_cast; constructor <;> linarith)

/-- Summing 2-decimal roundings moves a list sum by at most `1/200` per
element. -/
theorem sum_pyRound2_err (l : List Rat) :
    |(l.map pyRound2).sum - l.sum| ≤ (l.length : Rat) * (1 / 200) := by
  induction l with
  | nil => simp
  | cons x t ih =>
      simp only [List.map_cons, List.sum_cons, List.length_cons]
      have hx := pyRound2_err x
      have hsplit : pyRound2 x + (t.map pyRound2).sum - (x + t.sum)
          = (pyRound2 x - x) + ((t.map pyRound2).sum - t.sum) := by ring
      rw [hsplit]
      calc |(pyRound2 x - x) + ((t.map pyRound2).sum - t.sum)|
          ≤ |pyRound2 x - x| + |(t.map pyRound2).sum - t.sum| := abs_add _ _
        _ ≤ 1 / 200 + (t.length : Rat) * (1 / 200) := add_le_add hx ih
        _ = (((t.length + 1 : Nat)) : Rat) * (1 / 200) := by push_cast; ring

/-- C2: for every valid transaction set the per-region `total_sales` returned
by `region_wise_sales` sum to `calculate_total_revenue`, and when that total
is positive the rounded per-region percentages sum to `100` up to the
accumulated rounding error (at most `1/200` per region). -/
theorem region_wise_sales_spec (ts : List Transaction)
    (_hvalid : ∀ t ∈ ts, 0 < t.Quantity ∧ 0 < t.UnitPrice) :
    ((region_wise_sales ts).map (fun e => e.2.total_sales)).sum
        = calculate_total_revenue ts
    ∧ (0 < calculate_total_revenue ts →
        |((region_wise_sales ts).map (fun e => e.2.percentage)).sum - 100|
          ≤ ((region_wise_sales ts).length : Rat) / 200) := by
  obtain ⟨h1, h2⟩ := regionFold_spec ts [] 0
  simp only [List.map_nil, List.sum_nil, zero_add] at h1 h2
  have hcrev : calculate_total_revenue ts
      = (ts.map (fun t => (t.Quantity : Rat) * t.UnitPrice)).sum := by
    have := revenue_foldl ts 0
    simpa [calculate_total_revenue] using this
  have hrw : region_wise_sales ts
      = pySorted (fun a b => decide (b.2.total_sales ≤ a.2.total_sales))
          ((ts.foldl regionStep ([], 0)).1.map (fun e =>
            (e.1, ⟨e.2.total_sales, e.2.transaction_count,
              if 0 < (ts.foldl regionStep ([], 0)).2 then
                pyRound2 (e.2.total_sales / (ts.foldl regionStep ([], 0)).2 * 100)
              else 0⟩))) := rfl
  set G := ts.foldl regionStep ([], 0) with hG
  set wp := G.1.map (fun e : String × RegionAcc =>
      (e.1, (⟨e.2.total_sales, e.2.transaction_count,
        if 0 < G.2 then pyRound2 (e.2.total_sales / G.2 * 100) else 0⟩ : RegionStat)))
    with hwp
  have hperm : (region_wise_sales ts).Perm wp := by
    rw [hrw]
    exact pySorted_perm _ _
  constructor
  · calc ((region_wise_sales ts).map (fun e => e.2.total_sales)).sum
        = (wp.map (fun e : String × RegionStat => e.2.total_sales)).sum :=
          (hperm.map (fun e : String × RegionStat => e.2.total_sales)).sum_eq
      _ = (G.1.map (fun e : String × RegionAcc => e.2.total_sales)).sum := by
          rw [hwp, List.map_map]
          rfl
      _ = calculate_total_revenue ts := by rw [h2, hcrev]
  · intro hpos
    have hposG : 0 < G.2 := by
      rw [h1, ← hcrev]
      exact hpos
    have hpmap := (hperm.map (fun e : String × RegionStat => e.2.percentage)).sum_eq
    have hlen : (region_wise_sales ts).length = G.1.length := by
      rw [hperm.length_eq, hwp, List.length_map]
    set xs := G.1.map (fun e : String × RegionAcc => e.2.total_sales / G.2 * 100) with hxs
    have hpw : wp.map (fun e : String × RegionStat => e.2.percentage)
        = xs.map pyRound2 := by
      rw [hwp, hxs, List.map_map, List.map_map]
      apply List.map_congr_left
      intro e _
      simp only [Function.comp]
      rw [if_pos hposG]
    have hne : (ts.map (fun t => (t.Quantity : Rat) * t.UnitPrice)).sum ≠ 0 := by
      rw [← h1]
      exact ne_of_gt hposG
    have hxsum : xs.sum = 100 := by
      rw [hxs]
      have hcong : G.1.map (fun e : String × RegionAcc => e.2.total_sales / G.2 * 100)
          = G.1.map (fun e : String × RegionAcc => e.2.total_sales * (100 / G.2)) := by
        apply List.map_congr_left
        intro e _
        ring
      rw [hcong, List.sum_map_mul_right, h2, h1]
      field_simp
    have hbound := sum_pyRound2_err xs
    rw [hxsum] at hbound
    have hxlen : xs.length = G.1.length := by rw [hxs, List.length_map]
    rw [hpmap, hpw]
    calc |(xs.map pyRound2).sum - 100| ≤ (xs.length : Rat) * (1 / 200) := hbound
      _ = ((region_wise_sales ts).length : Rat) / 200 := by
          rw [hxlen, hlen]
          ring

/-- Witness for C2 at a concrete valid two-region transaction set. -/
theorem region_wise_sales_witness :
    (∀ t ∈ [txNorth, txSouth], 0 < t.Quantity ∧ 0 < t.UnitPrice)
    ∧ ((region_wise_sales [txNorth, txSouth]).map (fun e => e.2.total_sales)).sum
        = calculate_total_revenue [txNorth, txSouth] :=
  ⟨by decide, (region_wise_sales_spec [txNorth, txSouth] (by decide)).1⟩
